import Mathlib

/-
Shallow embedding of the cv-analytics text pipeline (src/flask_cv_analyzer.py).

The source is a Python module; strings are modelled as Lean `String` or
`List Char`, third-party extraction libraries (pdfplumber, PyPDF2, python-docx,
the file system) are modelled as an abstract environment of fallible functions
returning `Except`, and a raised Python exception is modelled as `Except.error`.
All character classes are the ASCII classes used by the source regexes
(the text fed to every regex is the output of unidecode, which is ASCII).
-/

namespace CVA

/-- ASCII alphanumeric, the class `[A-Za-z0-9]` of `_TOKEN_RE`. -/
def isAlnumA (c : Char) : Bool :=
  (65 ≤ c.toNat && c.toNat ≤ 90) || (97 ≤ c.toNat && c.toNat ≤ 122) ||
    (48 ≤ c.toNat && c.toNat ≤ 57)

/-- ASCII decimal digit, the regex class `\d` (on ASCII text). -/
def isDigitA (c : Char) : Bool := 48 ≤ c.toNat && c.toNat ≤ 57

/-- ASCII uppercase letter. -/
def isUpperA (c : Char) : Bool := 65 ≤ c.toNat && c.toNat ≤ 90

/-- Python regex `\w` (word character) on ASCII text: alphanumeric or underscore. -/
def isWordA (c : Char) : Bool := isAlnumA c || c.toNat == 95

/-- Python `\s` / `str.strip` whitespace on ASCII text: space, tab, LF, VT, FF, CR. -/
def isSpaceA (c : Char) : Bool := c.toNat == 32 || (9 ≤ c.toNat && c.toNat ≤ 13)

/-- Python `str.lower` on ASCII text: map `A-Z` to `a-z`, keep the rest. -/
def lowerA (c : Char) : Char :=
  if 65 ≤ c.toNat && c.toNat ≤ 90 then Char.ofNat (c.toNat + 32) else c

/-- Python `str.lower` over a whole string. -/
def pyLower (s : String) : String := String.mk (s.data.map lowerA)

/-- Truthiness of `s.strip()`: some character of `s` is not whitespace. -/
def stripTruthy (s : String) : Bool := s.data.any (fun c => !(isSpaceA c))

/-!  ## Document Reader (read_txt / read_docx / read_pdf / read_any)  -/

/-- The fallible external collaborators of the reader: `pdfplumber` page
extraction (one `Option String` per page, `none` for a `None` result),
`PyPDF2` page extraction, `python-docx` paragraph texts and a plain-text
file read.  An `Except.error` models a raised exception. -/
structure Env (ε : Type) where
  pdfplumber_pages : String → Except ε (List (Option String))
  pypdf2_pages : String → Except ε (List (Option String))
  docx_paragraphs : String → Except ε (List String)
  open_read : String → Except ε String

/-- Model of `"\n".join(text)`, each page contributing `page.extract_text() or ""`. -/
def joinPages (pages : List (Option String)) : String :=
  String.intercalate "\n" (pages.map (fun p => p.getD ""))

/-- Model of `read_txt`: open and decode ignoring bad bytes (decoding never
fails; opening may). -/
def read_txt {ε : Type} (env : Env ε) (path : String) : Except ε String :=
  env.open_read path

/-- Model of `read_docx`: paragraph texts joined by newlines. -/
def read_docx {ε : Type} (env : Env ε) (path : String) : Except ε String :=
  (env.docx_paragraphs path).map (fun ps => String.intercalate "\n" ps)

/-- Model of `read_pdf`: primary pdfplumber extraction; on exception, or on an
all-whitespace concatenation, the PyPDF2 fallback result (whose own
exception propagates). -/
def read_pdf {ε : Type} (env : Env ε) (path : String) : Except ε String :=
  let fallback : Except ε String := (env.pypdf2_pages path).map joinPages
  match env.pdfplumber_pages path with
  | Except.ok pages =>
      let out := joinPages pages
      if stripTruthy out then Except.ok out else fallback
  | Except.error _ => fallback

/-- Model of `os.path.splitext(p)[1]` (posix): the suffix of `p` from its last dot,
provided that dot lies in the basename and some earlier basename character
is not a dot; otherwise the empty extension. -/
def lastIdxAux (c : Char) : List Char → Nat → Option Nat → Option Nat
  | [], _, acc => acc
  | x :: r, i, acc => lastIdxAux c r (i + 1) (if x = c then some i else acc)

def lastIdx (c : Char) (p : List Char) : Option Nat := lastIdxAux c p 0 none

def extChk (p : List Char) (start d : Nat) : List Char :=
  if ((p.drop start).take (d - start)).any (fun c => c ≠ '.') then p.drop d else []

def splitext_ext (p : List Char) : List Char :=
  match lastIdx '.' p with
  | none => []
  | some d =>
    match lastIdx '/' p with
    | some s => if d ≤ s then [] else extChk p (s + 1) d
    | none => extChk p 0 d

/-- Model of `read_any`: dispatch on the extension of the lowercased path; an unknown
extension degrades to a best-effort plain read, returning `""` on failure. -/
def read_any {ε : Type} (env : Env ε) (path : String) : Except ε String :=
  let ext := splitext_ext (pyLower path).data
  if ext = ".pdf".data then read_pdf env path
  else if ext = ".docx".data then read_docx env path
  else if ext = ".txt".data then read_txt env path
  else
    match env.open_read path with
    | Except.ok s => Except.ok s
    | Except.error _ => Except.ok ""

/-!  ## Tokenizer (tokenize, _TOKEN_RE, stopword sets)  -/

/-- Separator characters allowed inside a token by `_TOKEN_RE`. -/
def isSepA (c : Char) : Bool := c = '-' || c = '_'

/-- Checker for the token pattern `[A-Za-z0-9]+(?:[-_][A-Za-z0-9]+)*` of
`_TOKEN_RE`.  The flag records whether an alphanumeric character is required
at the current position; `tokChk true l` holds when `l` matches the
pattern in full. -/
def tokChk : Bool → List Char → Bool
  | true, [] => false
  | false, [] => true
  | true, c :: r => isAlnumA c && tokChk false r
  | false, c :: r =>
    (isAlnumA c && tokChk false r) || (!isAlnumA c && isSepA c && tokChk true r)

/-- Scanner state for `_TOKEN_RE.findall`: outside a token, inside a token
with the characters read so far, or just after a `-`/`_` that will join the
token only if an alphanumeric character follows. -/
inductive TokSt where
  | idle : TokSt
  | inTok (acc : List Char) : TokSt
  | afterSep (acc : List Char) (sep : Char) : TokSt

def tokStep : List (List Char) × TokSt → Char → List (List Char) × TokSt
  | (out, TokSt.idle), c =>
    if isAlnumA c then (out, TokSt.inTok [c]) else (out, TokSt.idle)
  | (out, TokSt.inTok acc), c =>
    if isAlnumA c then (out, TokSt.inTok (acc ++ [c]))
    else if isSepA c then (out, TokSt.afterSep acc c)
    else (out ++ [acc], TokSt.idle)
  | (out, TokSt.afterSep acc s), c =>
    if isAlnumA c then (out, TokSt.inTok (acc ++ [s, c]))
    else (out ++ [acc], TokSt.idle)

def tokFinish : List (List Char) × TokSt → List (List Char)
  | (out, TokSt.idle) => out
  | (out, TokSt.inTok acc) => out ++ [acc]
  | (out, TokSt.afterSep acc _) => out ++ [acc]

/-- Model of `_TOKEN_RE.findall(text)`: the leftmost maximal substrings matching the
token pattern, in text order. -/
def findall_tokens (l : List Char) : List (List Char) :=
  tokFinish (l.foldl tokStep ([], TokSt.idle))

def collapseWS_go : Bool → List Char → List Char
  | _, [] => []
  | prev, c :: r =>
    if isSpaceA c then
      if prev then collapseWS_go true r else ' ' :: collapseWS_go true r
    else c :: collapseWS_go false r

/-- Model of `re.sub(r"\s+", " ", text)`: collapse every whitespace run to a single
space. -/
def collapseWS (l : List Char) : List Char := collapseWS_go false l

/-- Python `str.isdigit` on ASCII text: nonempty and all digits. -/
def pyIsDigit (s : String) : Bool := s.length != 0 && s.data.all isDigitA

/-- The NLTK English stopword corpus, the external fixed data the source
loads as `stopwords.words("english")` into `EN_STOP`. -/
def EN_STOP : List String :=
  ["i", "me", "my", "myself", "we", "our", "ours", "ourselves", "you",
   "you\x27re", "you\x27ve", "you\x27ll", "you\x27d", "your", "yours",
   "yourself", "yourselves", "he", "him", "his", "himself", "she",
   "she\x27s", "her", "hers", "herself", "it", "it\x27s", "its", "itself",
   "they", "them", "their", "theirs", "themselves", "what", "which", "who",
   "whom", "this", "that", "that\x27ll", "these", "those", "am", "is",
   "are", "was", "were", "be", "been", "being", "have", "has", "had",
   "having", "do", "does", "did", "doing", "a", "an", "the", "and", "but",
   "if", "or", "because", "as", "until", "while", "of", "at", "by", "for",
   "with", "about", "against", "between", "into", "through", "during",
   "before", "after", "above", "below", "to", "from", "up", "down", "in",
   "out", "on", "off", "over", "under", "again", "further", "then", "once",
   "here", "there", "when", "where", "why", "how", "all", "any", "both",
   "each", "few", "more", "most", "other", "some", "such", "no", "nor",
   "not", "only", "own", "same", "so", "than", "too", "very", "s", "t",
   "can", "will", "just", "don", "don\x27t", "should", "should\x27ve",
   "now", "d", "ll", "m", "o", "re", "ve", "y", "ain", "aren",
   "aren\x27t", "couldn", "couldn\x27t", "didn", "didn\x27t", "doesn",
   "doesn\x27t", "hadn", "hadn\x27t", "hasn", "hasn\x27t", "haven",
   "haven\x27t", "isn", "isn\x27t", "ma", "mightn", "mightn\x27t",
   "mustn", "mustn\x27t", "needn", "needn\x27t", "shan", "shan\x27t",
   "shouldn", "shouldn\x27t", "wasn", "wasn\x27t", "weren", "weren\x27t",
   "won", "won\x27t", "wouldn", "wouldn\x27t"]

/-- The custom CV-domain stopword set of the source (`CUSTOM_STOP`). -/
def CUSTOM_STOP : List String :=
  ["cv", "resume", "responsible", "worked", "using", "project", "projects",
   "tool", "performed", "objective", "summary", "include", "data",
   "management", "experience", "senior", "lead", "team", "develop",
   "developed", "design", "designed", "implement", "implemented", "build",
   "built", "created", "skills", "skill", "abilities", "ability",
   "proficient", "knowledge", "strong", "understanding", "etc"]

/-- Model of `tokenize(text, extra_stop)`: transliterate to ASCII, collapse
whitespace, find the token-pattern matches, lowercase them, drop pure
numbers, drop stopwords and tokens of length at most 2.  The unidecode
transliteration table is external; it is the parameter `ud` giving each
ASCII replacement string of each character. -/
def tokenize (ud : Char → List Char) (text : String) (extra_stop : List String) :
    List String × String :=
  let t := collapseWS (text.data.flatMap ud)
  let tokens := (findall_tokens t).map (fun l => String.mk (l.map lowerA))
  let tokens2 := tokens.filter (fun s => !(pyIsDigit s))
  let stop := EN_STOP ++ CUSTOM_STOP ++ extra_stop.map pyLower
  let tokens3 := tokens2.filter (fun s => !(stop.contains s) && s.length > 2)
  (tokens3, String.mk t)

/-- Invariant carried by the token scanner state: any partial token read so
far already matches the token pattern, and a pending separator is `-`/`_`. -/
def stOK : TokSt → Prop
  | TokSt.idle => True
  | TokSt.inTok acc => tokChk true acc = true
  | TokSt.afterSep acc s => tokChk true acc = true ∧ isSepA s = true

/-!  ## Year Extractor (YEAR_RE, extract_year_mentions)  -/

/-- The en dash accepted by `YEAR_RE` as a range separator. -/
def enDash : Char := Char.ofNat 8211

/-- Index lookup used by the regex model: character of `txt` at `i`. -/
def charAt (txt : List Char) (i : Nat) : Option Char := txt.get? i

/-- Whether position `i` of `txt` holds a word character (out of range is
not a word character). -/
def wordAt (txt : List Char) (i : Nat) : Bool :=
  match charAt txt i with
  | some c => isWordA c
  | none => false

/-- The regex word-boundary assertion at position `i` of `txt`. -/
def boundary (txt : List Char) (i : Nat) : Bool :=
  (if i = 0 then false else wordAt txt (i - 1)) != wordAt txt i

/-- Match of `19\d{2}|20\d{2}` at position `i`: the four matched characters. -/
def year4At (txt : List Char) (i : Nat) : Option (List Char) :=
  match charAt txt i, charAt txt (i + 1), charAt txt (i + 2), charAt txt (i + 3) with
  | some a, some b, some c, some d =>
    if ((a = '1' ∧ b = '9') ∨ (a = '2' ∧ b = '0')) ∧ isDigitA c ∧ isDigitA d then
      some [a, b, c, d]
    else none
  | _, _, _, _ => none

/-- Number of leading characters of `l` satisfying `p`. -/
def countWhile (p : Char → Bool) : List Char → Nat
  | [] => 0
  | c :: r => if p c then countWhile p r + 1 else 0

/-- End of the `\s*` run starting at position `i`. -/
def skipWS (txt : List Char) (i : Nat) : Nat := i + countWhile isSpaceA (txt.drop i)

/-- Case-insensitive literal match of `pat` at position `i` (the
`re.IGNORECASE` flag of `YEAR_RE`). -/
def ciAt (pat : List Char) (txt : List Char) (i : Nat) : Bool :=
  ((txt.drop i).take pat.length).map lowerA == pat

/-- The characters of `txt` from position `i`, `n` of them. -/
def slice (txt : List Char) (i n : Nat) : List Char := (txt.drop i).take n

/-- First alternative of `YEAR_RE` at position `i`:
`\b(19\d{2}|20\d{2})\b`, returning the year group. -/
def alt1At (txt : List Char) (i : Nat) : Option (List Char) :=
  if boundary txt i then
    match year4At txt i with
    | some y => if boundary txt (i + 4) then some y else none
    | none => none
  else none

/-- End part `(19\d{2}|20\d{2}|present|now)\b` of the second alternative at
position `m`: the captured group text and the match end. -/
def alt2End (txt : List Char) (m : Nat) : Option (List Char × Nat) :=
  match year4At txt m with
  | some y2 => if boundary txt (m + 4) then some (y2, m + 4) else none
  | none =>
    if ciAt "present".data txt m ∧ boundary txt (m + 7) then
      some (slice txt m 7, m + 7)
    else if ciAt "now".data txt m ∧ boundary txt (m + 3) then
      some (slice txt m 3, m + 3)
    else none

/-- Second alternative of `YEAR_RE` at position `i`:
`\b(19\d{2}|20\d{2})\s*(?:-|–|to)\s*(19\d{2}|20\d{2}|present|now)\b`,
returning the two captured groups and the match end. -/
def alt2At (txt : List Char) (i : Nat) : Option (List Char × List Char × Nat) :=
  if boundary txt i then
    match year4At txt i with
    | none => none
    | some y1 =>
      let k := skipWS txt (i + 4)
      let dashEnd : Option Nat :=
        match charAt txt k with
        | some c =>
          if c = '-' ∨ c = enDash then some (k + 1)
          else if ciAt "to".data txt k then some (k + 2)
          else none
        | none => none
      match dashEnd with
      | none => none
      | some m0 =>
        let m := skipWS txt m0
        match alt2End txt m with
        | some (g3, e) => some (y1, g3, e)
        | none => none
  else none

/-- Model of `YEAR_RE.findall(raw_text)`: scan left to right, at each position try the
first alternative then the second, emit the group tuple of the match and
resume after its end. -/
def year_scan_go (txt : List Char) : Nat → Nat → List (List Char × List Char × List Char)
  | 0, _ => []
  | f + 1, i =>
    if i > txt.length then []
    else
      match alt1At txt i with
      | some y => (y, [], []) :: year_scan_go txt f (i + 4)
      | none =>
        match alt2At txt i with
        | some (y1, g3, e) => ([], y1, g3) :: year_scan_go txt f e
        | none => year_scan_go txt f (i + 1)

def year_findall (txt : List Char) : List (List Char × List Char × List Char) :=
  year_scan_go txt (txt.length + 2) 0

/-- Numeric value of a digit string. -/
def digitsVal (l : List Char) : Nat := l.foldl (fun a c => a * 10 + (c.toNat - 48)) 0

/-- Model of `int(s)` guarded by `except ValueError` (the captured groups are digit
strings, so signs and surrounding whitespace never occur). -/
def parseNat (l : List Char) : Option Nat :=
  if l ≠ [] ∧ l.all isDigitA then some (digitsVal l) else none

/-- The body of the collection loop of `extract_year_mentions` for one group
string: keep a nonempty group that is not `present`/`now`, parses as an
integer and lies in the accepted window. -/
def keepYear (current_year : Nat) (s : List Char) : Option Nat :=
  if s ≠ [] ∧ ¬(s.map lowerA = "present".data) ∧ ¬(s.map lowerA = "now".data) then
    match parseNat s with
    | some y => if 1950 ≤ y ∧ y ≤ current_year + 1 then some y else none
    | none => none
  else none

/-- Model of `extract_year_mentions(raw_text)`: every numeric group of every
`YEAR_RE` match, filtered to `[1950, current_year + 1]`, in discovery order
with duplicates retained.  `datetime.now().year` is the parameter
`current_year`. -/
def extract_year_mentions (current_year : Nat) (raw_text : String) : List Nat :=
  (year_findall raw_text.data).flatMap
    (fun g => [g.1, g.2.1, g.2.2].filterMap (keepYear current_year))

/-!  ## Keyword Analyzer (count_keywords, analyze_keywords_data)  -/

/-- Literal occurrence of `pat` at position `i` of `txt`. -/
def occursAt (pat txt : List Char) (i : Nat) : Bool :=
  (txt.drop i).take pat.length == pat

/-- A match of the pattern `\b<escaped literal>\b` at position `i`. -/
def kwMatchAt (pat txt : List Char) (i : Nat) : Bool :=
  occursAt pat txt i && boundary txt i && boundary txt (i + pat.length)

/-- Non-overlapping left-to-right match count, the length of
`re.findall(pattern, text_lower)`. -/
def count_matches_go (pat txt : List Char) : Nat → Nat → Nat
  | 0, _ => 0
  | f + 1, i =>
    if i > txt.length then 0
    else if kwMatchAt pat txt i then
      1 + count_matches_go pat txt f (i + max pat.length 1)
    else count_matches_go pat txt f (i + 1)

def count_matches (pat txt : List Char) : Nat :=
  count_matches_go pat txt (txt.length + 2) 0

/-- Model of `len(re.findall(r"\b" + re.escape(keyword.lower()) + r"\b", text.lower()))`,
the count of one keyword in `count_keywords`. -/
def keywordCount (keyword text : String) : Nat :=
  count_matches (pyLower keyword).data (pyLower text).data

/-- Python `dict` assignment `d[k] = v` on an insertion-ordered association
list: update in place if the key exists, else append. -/
def dict_insert {β : Type} (l : List (String × β)) (k : String) (v : β) :
    List (String × β) :=
  if l.any (fun p => p.1 = k) then
    l.map (fun p => if p.1 = k then (k, v) else p)
  else l ++ [(k, v)]

/-- Model of `count_keywords(text, keywords)`: each keyword mapped to its
boundary-anchored match count in the lowercased text. -/
def count_keywords (text : String) (keywords : List String) : List (String × Nat) :=
  keywords.foldl (fun acc kw => dict_insert acc kw (keywordCount kw text)) []

/-- Model of `analyze_keywords_data(keyword_lists)` on the raw text: each category
mapped to its keyword counts. -/
def analyze_keywords_data (raw_text : String)
    (keyword_lists : List (String × List String)) :
    List (String × List (String × Nat)) :=
  keyword_lists.foldl (fun acc p => dict_insert acc p.1 (count_keywords raw_text p.2)) []

/-!  ## Analysis Aggregator (Counter, most_common)  -/

/-- Model of `collections.Counter(tokens)` as an insertion-ordered association list:
keys appear in first-occurrence order; counting updates keep the order. -/
def counterItems (tokens : List String) : List (String × Nat) :=
  tokens.foldl
    (fun acc t =>
      if acc.any (fun p => p.1 = t) then
        acc.map (fun p => if p.1 = t then (p.1, p.2 + 1) else p)
      else acc ++ [(t, 1)])
    []

/-- Model of `Counter.most_common(n)`: a stable descending sort of the items by
count (`heapq.nlargest` is documented as `sorted(items, key, reverse=True)[:n]`,
and Python sorts are stable), then the first `n`. -/
def most_common (n : Nat) (tokens : List String) : List (String × Nat) :=
  (List.insertionSort (fun x y : String × Nat => y.2 ≤ x.2) (counterItems tokens)).take n

/-- Specification order for `most_common`: on index-annotated items, strictly
larger count first, and among equal counts the smaller first-appearance
index first. -/
def mcOrder (a b : Nat × String × Nat) : Prop :=
  b.2.2 < a.2.2 ∨ (a.2.2 = b.2.2 ∧ a.1 ≤ b.1)

instance : DecidableRel mcOrder := fun _ _ =>
  inferInstanceAs (Decidable (_ ∨ _))

instance : IsTotal (Nat × String × Nat) mcOrder :=
  ⟨fun a b => by unfold mcOrder; omega⟩

instance : IsTrans (Nat × String × Nat) mcOrder :=
  ⟨fun a b c hab hbc => by unfold mcOrder at *; omega⟩

/-- Shared shape lemma: whenever the primary extraction raises or yields an
all-whitespace concatenation, `read_pdf` is exactly the fallback result. -/
theorem read_pdf_eq_fallback {ε : Type} (env : Env ε) (path : String)
    (h : (∃ e, env.pdfplumber_pages path = Except.error e) ∨
      (∃ pages, env.pdfplumber_pages path = Except.ok pages ∧
        stripTruthy (joinPages pages) = false)) :
    read_pdf env path = (env.pypdf2_pages path).map joinPages := by
  unfold read_pdf
  rcases h with ⟨e, he⟩ | ⟨pages, hp, hw⟩
  · rw [he]
  · rw [hp]
    simp [hw]

/-- Claim C1: for every PDF path, if the primary (pdfplumber) extraction
raises, or succeeds with a concatenation containing only whitespace, then
`read_pdf` returns exactly the secondary (PyPDF2) result, so a
primary-extractor exception is never propagated to the caller. -/
theorem read_pdf_fallback_on_primary_failure {ε : Type} (env : Env ε) (path : String)
    (h : (∃ e, env.pdfplumber_pages path = Except.error e) ∨
      (∃ pages, env.pdfplumber_pages path = Except.ok pages ∧
        stripTruthy (joinPages pages) = false)) :
    read_pdf env path = (env.pypdf2_pages path).map joinPages :=
  read_pdf_eq_fallback env path h

/-- Concrete instance of C1: the primary extractor raises and the fallback
output is returned. -/
theorem read_pdf_fallback_on_primary_failure_witness :
    read_pdf
      (Env.mk (ε := Unit) (fun _ => Except.error ()) (fun _ => Except.ok [some "hello"])
        (fun _ => Except.error ()) (fun _ => Except.error ())) "cv.pdf" =
      Except.ok "hello" := by
  rw [read_pdf_fallback_on_primary_failure
    (Env.mk (ε := Unit) (fun _ => Except.error ()) (fun _ => Except.ok [some "hello"])
      (fun _ => Except.error ()) (fun _ => Except.error ())) "cv.pdf" (Or.inl ⟨(), rfl⟩)]
  rfl

/-- Claim C8: if the primary tier fails (exception or only-whitespace output)
and the secondary tier also raises, `read_pdf` propagates the error to the
caller instead of returning a result. -/
theorem read_pdf_error_when_both_tiers_fail {ε : Type} (env : Env ε) (path : String)
    (e₂ : ε)
    (h : (∃ e, env.pdfplumber_pages path = Except.error e) ∨
      (∃ pages, env.pdfplumber_pages path = Except.ok pages ∧
        stripTruthy (joinPages pages) = false))
    (h₂ : env.pypdf2_pages path = Except.error e₂) :
    read_pdf env path = Except.error e₂ := by
  rw [read_pdf_eq_fallback env path h, h₂]
  rfl

/-- Concrete instance of C8: primary yields only whitespace, secondary
raises, and the reader surfaces the error. -/
theorem read_pdf_error_when_both_tiers_fail_witness :
    read_pdf
      (Env.mk (ε := Nat) (fun _ => Except.ok [some " ", none]) (fun _ => Except.error 7)
        (fun _ => Except.error 7) (fun _ => Except.error 7)) "cv.pdf" =
      Except.error 7 :=
  read_pdf_error_when_both_tiers_fail
    (Env.mk (ε := Nat) (fun _ => Except.ok [some " ", none]) (fun _ => Except.error 7)
      (fun _ => Except.error 7) (fun _ => Except.error 7)) "cv.pdf" 7
    (Or.inr ⟨[some " ", none], rfl, by decide⟩) rfl

/-- Claim C9: for a path whose (lowercased) extension is none of `.pdf`,
`.docx`, `.txt`, the reader attempts a plain-text read and returns its text,
or the empty string if that read fails; it never returns an error. -/
theorem read_any_unknown_ext_plain_read {ε : Type} (env : Env ε) (path : String)
    (h : splitext_ext (pyLower path).data ∉ [".pdf".data, ".docx".data, ".txt".data]) :
    read_any env path =
      Except.ok (match env.open_read path with
        | Except.ok s => s
        | Except.error _ => "") := by
  simp only [List.mem_cons, List.not_mem_nil, or_false, not_or] at h
  obtain ⟨h1, h2, h3⟩ := h
  unfold read_any
  simp only [if_neg h1, if_neg h2, if_neg h3]
  cases env.open_read path <;> rfl

/-- Concrete instance of C9: an unknown extension with a failing plain read
yields the empty string. -/
theorem read_any_unknown_ext_plain_read_witness :
    read_any
      (Env.mk (ε := Unit) (fun _ => Except.error ()) (fun _ => Except.error ())
        (fun _ => Except.error ()) (fun _ => Except.error ())) "cv.xyz" =
      Except.ok "" := by
  rw [read_any_unknown_ext_plain_read
    (Env.mk (ε := Unit) (fun _ => Except.error ()) (fun _ => Except.error ())
      (fun _ => Except.error ()) (fun _ => Except.error ())) "cv.xyz" (by decide)]

/-!  ## Character lemmas  -/

theorem char_toNat_ofNat {n : Nat} (h : n < 55296) : (Char.ofNat n).toNat = n := by
  have hv : n.isValidChar := Or.inl h
  simp only [Char.ofNat, hv, dif_pos, Char.ofNatAux, Char.toNat]
  rfl

theorem lowerA_spec (c : Char) :
    (isUpperA c = true ∧ (lowerA c).toNat = c.toNat + 32) ∨
    (isUpperA c = false ∧ lowerA c = c) := by
  unfold lowerA
  rw [show (65 ≤ c.toNat && c.toNat ≤ 90) = isUpperA c from rfl]
  cases h : isUpperA c with
  | true =>
    left
    refine ⟨rfl, ?_⟩
    have hb : c.toNat ≤ 90 := by
      unfold isUpperA at h
      simp only [Bool.and_eq_true, decide_eq_true_eq] at h
      exact h.2
    simp only [if_true]
    exact char_toNat_ofNat (by omega)
  | false => right; exact ⟨rfl, by simp⟩

theorem lowerA_eq_of_not_upper {c : Char} (h : isUpperA c = false) : lowerA c = c := by
  rcases lowerA_spec c with ⟨h1, _⟩ | ⟨_, h2⟩
  · rw [h] at h1; cases h1
  · exact h2

theorem lowerA_eq_of_not_alnum {c : Char} (h : isAlnumA c = false) : lowerA c = c := by
  apply lowerA_eq_of_not_upper
  unfold isAlnumA at h
  unfold isUpperA
  simp only [Bool.or_eq_false_iff, Bool.and_eq_false_iff] at h ⊢
  simp only [decide_eq_false_iff_not] at h ⊢
  omega

theorem isAlnumA_lowerA {c : Char} (h : isAlnumA c = true) : isAlnumA (lowerA c) = true := by
  rcases lowerA_spec c with ⟨h1, h2⟩ | ⟨_, h2⟩
  · unfold isAlnumA at h ⊢
    unfold isUpperA at h1
    simp only [Bool.or_eq_true, Bool.and_eq_true, decide_eq_true_eq] at h h1 ⊢
    omega
  · rw [h2]; exact h

theorem isUpperA_lowerA (c : Char) : isUpperA (lowerA c) = false := by
  rcases lowerA_spec c with ⟨h1, h2⟩ | ⟨h1, h2⟩
  · unfold isUpperA at h1 ⊢
    simp only [Bool.and_eq_true, decide_eq_true_eq] at h1
    simp only [Bool.and_eq_false_iff, decide_eq_false_iff_not]
    omega
  · rw [h2]; exact h1

/-!  ## Token pattern lemmas  -/

theorem tokChk_snoc_alnum {c : Char} (hc : isAlnumA c = true) :
    ∀ (l : List Char) (b : Bool), tokChk b l = true → tokChk b (l ++ [c]) = true := by
  intro l
  induction l with
  | nil =>
    intro b hb
    cases b with
    | true => simp [tokChk] at hb
    | false => simp [tokChk, hc]
  | cons d r ih =>
    intro b hb
    cases b with
    | true =>
      simp only [tokChk, Bool.and_eq_true] at hb
      simp only [List.cons_append, tokChk, Bool.and_eq_true]
      exact ⟨hb.1, ih false hb.2⟩
    | false =>
      simp only [tokChk, Bool.or_eq_true, Bool.and_eq_true, Bool.not_eq_true'] at hb
      simp only [List.cons_append, tokChk, Bool.or_eq_true, Bool.and_eq_true,
        Bool.not_eq_true']
      rcases hb with ⟨h1, h2⟩ | ⟨⟨h1, h2⟩, h3⟩
      · exact Or.inl ⟨h1, ih false h2⟩
      · exact Or.inr ⟨⟨h1, h2⟩, ih true h3⟩

theorem tokChk_snoc_sep {s c : Char} (hs : isSepA s = true) (hc : isAlnumA c = true)
    (hsa : isAlnumA s = false) :
    ∀ (l : List Char) (b : Bool), tokChk b l = true → tokChk b (l ++ [s, c]) = true := by
  intro l
  induction l with
  | nil =>
    intro b hb
    cases b with
    | true => simp [tokChk] at hb
    | false => simp [tokChk, hs, hc, hsa]
  | cons d r ih =>
    intro b hb
    cases b with
    | true =>
      simp only [tokChk, Bool.and_eq_true] at hb
      simp only [List.cons_append, tokChk, Bool.and_eq_true]
      exact ⟨hb.1, ih false hb.2⟩
    | false =>
      simp only [tokChk, Bool.or_eq_true, Bool.and_eq_true, Bool.not_eq_true'] at hb
      simp only [List.cons_append, tokChk, Bool.or_eq_true, Bool.and_eq_true,
        Bool.not_eq_true']
      rcases hb with ⟨h1, h2⟩ | ⟨⟨h1, h2⟩, h3⟩
      · exact Or.inl ⟨h1, ih false h2⟩
      · exact Or.inr ⟨⟨h1, h2⟩, ih true h3⟩

theorem isSepA_not_alnum {c : Char} (h : isSepA c = true) : isAlnumA c = false := by
  unfold isSepA at h
  simp only [Bool.or_eq_true, decide_eq_true_eq] at h
  rcases h with h | h <;> subst h <;> decide

theorem tokChk_map_lowerA :
    ∀ (l : List Char) (b : Bool), tokChk b l = true → tokChk b (l.map lowerA) = true := by
  intro l
  induction l with
  | nil => intro b hb; simpa using hb
  | cons d r ih =>
    intro b hb
    cases b with
    | true =>
      simp only [tokChk, Bool.and_eq_true] at hb
      simp only [List.map_cons, tokChk, Bool.and_eq_true]
      exact ⟨isAlnumA_lowerA hb.1, ih false hb.2⟩
    | false =>
      simp only [tokChk, Bool.or_eq_true, Bool.and_eq_true, Bool.not_eq_true'] at hb
      simp only [List.map_cons, tokChk, Bool.or_eq_true, Bool.and_eq_true,
        Bool.not_eq_true']
      rcases hb with ⟨h1, h2⟩ | ⟨⟨h1, h2⟩, h3⟩
      · exact Or.inl ⟨isAlnumA_lowerA h1, ih false h2⟩
      · have hld : lowerA d = d := lowerA_eq_of_not_alnum h1
        rw [hld]
        exact Or.inr ⟨⟨h1, h2⟩, ih true h3⟩

/-!  ## Token scanner invariant  -/

theorem tokStep_inv (out : List (List Char)) (st : TokSt) (c : Char)
    (hout : ∀ t ∈ out, tokChk true t = true) (hst : stOK st) :
    (∀ t ∈ (tokStep (out, st) c).1, tokChk true t = true) ∧
      stOK (tokStep (out, st) c).2 := by
  cases st with
  | idle =>
    cases hc : isAlnumA c with
    | true =>
      simp only [tokStep, hc, if_true]
      exact ⟨hout, by simp [stOK, tokChk, hc]⟩
    | false =>
      simp only [tokStep, hc, if_false]
      exact ⟨hout, trivial⟩
  | inTok acc =>
    have hacc : tokChk true acc = true := hst
    cases hc : isAlnumA c with
    | true =>
      simp only [tokStep, hc, if_true]
      exact ⟨hout, tokChk_snoc_alnum hc acc true hacc⟩
    | false =>
      cases hs : isSepA c with
      | true =>
        simp only [tokStep, hc, hs, if_true, if_false]
        exact ⟨hout, hacc, hs⟩
      | false =>
        simp only [tokStep, hc, hs, if_false]
        refine ⟨?_, trivial⟩
        intro t ht
        rcases List.mem_append.mp ht with h | h
        · exact hout t h
        · rw [List.mem_singleton.mp h]; exact hacc
  | afterSep acc s =>
    obtain ⟨hacc, hs⟩ := hst
    cases hc : isAlnumA c with
    | true =>
      simp only [tokStep, hc, if_true]
      exact ⟨hout, tokChk_snoc_sep hs hc (isSepA_not_alnum hs) acc true hacc⟩
    | false =>
      simp only [tokStep, hc, if_false]
      refine ⟨?_, trivial⟩
      intro t ht
      rcases List.mem_append.mp ht with h | h
      · exact hout t h
      · rw [List.mem_singleton.mp h]; exact hacc

theorem foldl_tokStep_inv (l : List Char) :
    ∀ out st, (∀ t ∈ out, tokChk true t = true) → stOK st →
      (∀ t ∈ (l.foldl tokStep (out, st)).1, tokChk true t = true) ∧
        stOK (l.foldl tokStep (out, st)).2 := by
  induction l with
  | nil => intro out st h1 h2; exact ⟨h1, h2⟩
  | cons c r ih =>
    intro out st h1 h2
    have h := tokStep_inv out st c h1 h2
    rw [List.foldl_cons]
    exact ih _ _ h.1 h.2

theorem findall_tokens_chk (l : List Char) :
    ∀ t ∈ findall_tokens l, tokChk true t = true := by
  unfold findall_tokens
  obtain ⟨hout, hst⟩ := foldl_tokStep_inv l [] TokSt.idle (by simp) trivial
  intro t ht
  have hpe : l.foldl tokStep ([], TokSt.idle) =
      ((l.foldl tokStep ([], TokSt.idle)).1, (l.foldl tokStep ([], TokSt.idle)).2) := rfl
  rw [hpe] at ht
  cases hq : (l.foldl tokStep ([], TokSt.idle)).2 with
  | idle =>
    rw [hq] at ht
    exact hout t ht
  | inTok acc =>
    rw [hq] at ht
    have ht2 : t ∈ (l.foldl tokStep ([], TokSt.idle)).1 ++ [acc] := ht
    rcases List.mem_append.mp ht2 with h | h
    · exact hout t h
    · rw [List.mem_singleton.mp h]
      rw [hq] at hst
      exact hst
  | afterSep acc s =>
    rw [hq] at ht
    have ht2 : t ∈ (l.foldl tokStep ([], TokSt.idle)).1 ++ [acc] := ht
    rcases List.mem_append.mp ht2 with h | h
    · exact hout t h
    · rw [List.mem_singleton.mp h]
      rw [hq] at hst
      exact hst.1

/-- Claim C2: every token returned by `tokenize` matches the token pattern,
is entirely lowercase, is longer than 2 characters, is not purely numeric,
and belongs to none of the standard English stopword set, the custom domain
stopword set and the lowercased extra stopwords. -/
theorem tokenize_token_shape (ud : Char → List Char) (text : String)
    (extra_stop : List String) :
    ∀ t ∈ (tokenize ud text extra_stop).1,
      tokChk true t.data = true ∧ (∀ c ∈ t.data, isUpperA c = false) ∧
      t.length > 2 ∧ pyIsDigit t = false ∧
      t ∉ EN_STOP ∧ t ∉ CUSTOM_STOP ∧ t ∉ extra_stop.map pyLower := by
  intro t ht
  simp only [tokenize] at ht
  rw [List.mem_filter] at ht
  obtain ⟨ht, hc2⟩ := ht
  rw [List.mem_filter] at ht
  obtain ⟨ht, hc1⟩ := ht
  rw [List.mem_map] at ht
  obtain ⟨u, hu, rfl⟩ := ht
  have hchk : tokChk true u = true := findall_tokens_chk _ u hu
  have hdata : (String.mk (u.map lowerA)).data = u.map lowerA := rfl
  simp only [Bool.and_eq_true, Bool.not_eq_true', decide_eq_true_eq] at hc2
  obtain ⟨hcont, hlen⟩ := hc2
  simp only [Bool.not_eq_true'] at hc1
  have hnotmem : String.mk (u.map lowerA) ∉
      EN_STOP ++ CUSTOM_STOP ++ extra_stop.map pyLower := by
    simpa using hcont
  simp only [List.mem_append, not_or] at hnotmem
  refine ⟨?_, ?_, hlen, hc1, hnotmem.1.1, hnotmem.1.2, hnotmem.2⟩
  · rw [hdata]
    exact tokChk_map_lowerA u true hchk
  · rw [hdata]
    intro c hc
    rw [List.mem_map] at hc
    obtain ⟨d, _, rfl⟩ := hc
    exact isUpperA_lowerA d

/-- Concrete instance of C2: the token `docker` produced from a sample text
satisfies every required property. -/
theorem tokenize_token_shape_witness :
    tokChk true "docker".data = true ∧ (∀ c ∈ "docker".data, isUpperA c = false) ∧
    "docker".length > 2 ∧ pyIsDigit "docker" = false ∧
    "docker" ∉ EN_STOP ∧ "docker" ∉ CUSTOM_STOP ∧
    "docker" ∉ ([] : List String).map pyLower :=
  tokenize_token_shape (fun c => [c]) "Skilled in Docker!" [] "docker" (by decide)

/-!  ## Year extractor lemmas  -/

theorem keepYear_nil (cy : Nat) : keepYear cy [] = none := by
  unfold keepYear
  rw [if_neg]
  simp

theorem keepYear_some (cy y : Nat) (s : List Char) (hp : parseNat s = some y)
    (hne : s ≠ [] ∧ ¬(s.map lowerA = "present".data) ∧ ¬(s.map lowerA = "now".data))
    (h1 : 1950 ≤ y) (h2 : y ≤ cy + 1) : keepYear cy s = some y := by
  unfold keepYear
  rw [if_pos hne, hp]
  simp [h1, h2]

theorem keepYear_out (cy y : Nat) (s : List Char) (hp : parseNat s = some y)
    (h : ¬(1950 ≤ y ∧ y ≤ cy + 1)) : keepYear cy s = none := by
  unfold keepYear
  by_cases hne : s ≠ [] ∧ ¬(s.map lowerA = "present".data) ∧ ¬(s.map lowerA = "now".data)
  · rw [if_pos hne, hp]
    simp [h]
  · rw [if_neg hne]

/-- Claim C3: every extracted year lies in `[1950, current_year + 1]`; a
year that matches the pattern but falls outside the window is silently
dropped, and in particular `Born in 1875` yields the empty list. -/
theorem year_mentions_within_window (current_year : Nat) (raw_text : String) :
    (∀ y ∈ extract_year_mentions current_year raw_text,
      1950 ≤ y ∧ y ≤ current_year + 1) ∧
    extract_year_mentions current_year "Born in 1875" = [] ∧
    extract_year_mentions current_year "Signed in 1949" = [] := by
  refine ⟨?_, ?_, ?_⟩
  · intro y hy
    unfold extract_year_mentions at hy
    rw [List.mem_flatMap] at hy
    obtain ⟨g, _, hy⟩ := hy
    rw [List.mem_filterMap] at hy
    obtain ⟨s, _, hs⟩ := hy
    unfold keepYear at hs
    by_cases hcond : s ≠ [] ∧ ¬(s.map lowerA = "present".data) ∧
        ¬(s.map lowerA = "now".data)
    · rw [if_pos hcond] at hs
      cases hp : parseNat s with
      | none => simp [hp] at hs
      | some n =>
        simp only [hp] at hs
        split at hs
        · next h2 =>
          cases hs
          exact h2
        · cases hs
    · rw [if_neg hcond] at hs
      cases hs
  · unfold extract_year_mentions
    rw [show year_findall "Born in 1875".data = [] from by decide]
    rfl
  · unfold extract_year_mentions
    rw [show year_findall "Signed in 1949".data = [("1949".data, [], [])] from by decide]
    have h0 : keepYear current_year "1949".data = none :=
      keepYear_out current_year 1949 "1949".data (by decide) (by omega)
    simp [h0, keepYear_nil]

/-- Concrete instance of C3: with the clock year 2026, the window holds for
an extracted year and the out-of-range examples give empty lists. -/
theorem year_mentions_within_window_witness :
    (1950 ≤ 2015 ∧ 2015 ≤ 2026 + 1) ∧
    extract_year_mentions 2026 "Born in 1875" = [] ∧
    extract_year_mentions 2026 "Signed in 1949" = [] :=
  ⟨(year_mentions_within_window 2026 "from 2015").1 2015 (by decide),
    (year_mentions_within_window 2026 "x").2.1,
    (year_mentions_within_window 2026 "x").2.2⟩

/-- Claim C4: the extractor returns `[2015, 2019]` on
`Worked there from 2015-2019`, `[]` on `Phone: 9998887` and `[2024]` on
`2024` (whenever the clock year admits 2024, i.e. from 2023 on), with one
entry per mention in discovery order. -/
theorem year_extraction_examples (current_year : Nat) (h : 2023 ≤ current_year) :
    extract_year_mentions current_year "Worked there from 2015-2019" = [2015, 2019] ∧
    extract_year_mentions current_year "Phone: 9998887" = [] ∧
    extract_year_mentions current_year "2024" = [2024] := by
  have h15 : keepYear current_year "2015".data = some 2015 :=
    keepYear_some current_year 2015 "2015".data (by decide)
      ⟨by decide, by decide, by decide⟩ (by omega) (by omega)
  have h19 : keepYear current_year "2019".data = some 2019 :=
    keepYear_some current_year 2019 "2019".data (by decide)
      ⟨by decide, by decide, by decide⟩ (by omega) (by omega)
  have h24 : keepYear current_year "2024".data = some 2024 :=
    keepYear_some current_year 2024 "2024".data (by decide)
      ⟨by decide, by decide, by decide⟩ (by omega) (by omega)
  refine ⟨?_, ?_, ?_⟩
  · unfold extract_year_mentions
    rw [show year_findall "Worked there from 2015-2019".data =
      [("2015".data, [], []), ("2019".data, [], [])] from by decide]
    simp [h15, h19, keepYear_nil, List.filterMap]
  · unfold extract_year_mentions
    rw [show year_findall "Phone: 9998887".data = [] from by decide]
    rfl
  · unfold extract_year_mentions
    rw [show year_findall "2024".data = [("2024".data, [], [])] from by decide]
    simp [h24, keepYear_nil, List.filterMap]

/-- Concrete instance of C4 at clock year 2026. -/
theorem year_extraction_examples_witness :
    extract_year_mentions 2026 "Worked there from 2015-2019" = [2015, 2019] ∧
    extract_year_mentions 2026 "Phone: 9998887" = [] ∧
    extract_year_mentions 2026 "2024" = [2024] :=
  year_extraction_examples 2026 (by decide)

/-!  ## Keyword analyzer lemmas  -/

theorem lowerA_idem (c : Char) : lowerA (lowerA c) = lowerA c := by
  rcases lowerA_spec c with ⟨h1, h2⟩ | ⟨_, h2⟩
  · apply lowerA_eq_of_not_upper
    unfold isUpperA at h1 ⊢
    simp only [Bool.and_eq_true, decide_eq_true_eq] at h1
    simp only [Bool.and_eq_false_iff, decide_eq_false_iff_not]
    omega
  · rw [h2, h2]

theorem pyLower_idem (s : String) : pyLower (pyLower s) = pyLower s := by
  simp only [pyLower]
  congr 1
  rw [List.map_map]
  exact List.map_congr_left (fun a _ => lowerA_idem a)

/-- Claim C5: keyword counting is case-insensitive whole-word matching on
the lowercased raw text: lowercasing keyword or text does not change the
count, `containers` gives no match for `container`, and
`Docker and Kubernetes` against `[docker, kubernetes, git]` counts
`1, 1, 0`. -/
theorem keyword_matching_whole_word :
    (∀ kw text : String, keywordCount kw text = keywordCount kw (pyLower text) ∧
      keywordCount kw text = keywordCount (pyLower kw) text) ∧
    keywordCount "container" "containers" = 0 ∧
    analyze_keywords_data "Docker and Kubernetes"
        [("Technical Skills", ["docker", "kubernetes", "git"])] =
      [("Technical Skills", [("docker", 1), ("kubernetes", 1), ("git", 0)])] := by
  refine ⟨?_, by decide, by decide⟩
  intro kw text
  unfold keywordCount
  exact ⟨by rw [pyLower_idem], by rw [pyLower_idem]⟩

theorem occursAt_get {pat txt : List Char} {i : Nat} (h : occursAt pat txt i = true) :
    ∀ j < pat.length, txt.get? (i + j) = pat.get? j := by
  unfold occursAt at h
  rw [beq_iff_eq] at h
  intro j hj
  have h1 : txt.get? (i + j) = (txt.drop i).get? j := (List.get?_drop txt i j).symm
  have h2 : (txt.drop i).get? j = ((txt.drop i).take pat.length).get? j :=
    (List.get?_take hj).symm
  rw [h1, h2, h]

theorem occursAt_lt {pat txt : List Char} {i : Nat} (hp : pat ≠ [])
    (h : occursAt pat txt i = true) : i < txt.length := by
  have h0 : txt.get? (i + 0) = pat.get? 0 :=
    occursAt_get h 0 (by cases pat with | nil => exact absurd rfl hp | cons a l => simp)
  cases hv : pat.get? 0 with
  | none =>
    cases pat with
    | nil => exact absurd rfl hp
    | cons a l => simp at hv
  | some c =>
    rw [hv] at h0
    by_contra hge
    rw [List.get?_eq_none.mpr (by omega)] at h0
    cases h0

/-- Claim C10: for a keyword whose lowercased final character is not a word
character, if no occurrence of the keyword in the lowercased text is
followed by a word character (only whitespace, punctuation or the end of
text), the count is 0: the trailing boundary anchor can match only before a
word character. -/
theorem keyword_trailing_nonword_zero (kw text : String) (c : Char)
    (hlast : (pyLower kw).data.getLast? = some c) (hw : isWordA c = false)
    (hocc : ∀ i < (pyLower text).data.length,
      occursAt (pyLower kw).data (pyLower text).data i →
        wordAt (pyLower text).data (i + (pyLower kw).data.length) = false) :
    keywordCount kw text = 0 := by
  unfold keywordCount count_matches
  set pat := (pyLower kw).data with hpat
  set txt := (pyLower text).data with htxt
  have hpne : pat ≠ [] := by
    intro hnil
    rw [hnil] at hlast
    cases hlast
  have hplen : 0 < pat.length := List.length_pos.mpr hpne
  have hmatch : ∀ i, kwMatchAt pat txt i = false := by
    intro i
    unfold kwMatchAt
    cases ho : occursAt pat txt i with
    | false => simp
    | true =>
      have hi : i < txt.length := occursAt_lt hpne ho
      have hlastget : txt.get? (i + (pat.length - 1)) = some c := by
        rw [occursAt_get ho (pat.length - 1) (by omega)]
        rw [← List.getLast?_eq_get? pat]
        exact hlast
      have hw1 : wordAt txt (i + pat.length - 1) = false := by
        unfold wordAt charAt
        rw [show i + pat.length - 1 = i + (pat.length - 1) from by omega, hlastget]
        exact hw
      have hw2 : wordAt txt (i + pat.length) = false := hocc i hi ho
      have hb : boundary txt (i + pat.length) = false := by
        unfold boundary
        rw [if_neg (by omega), hw1, hw2]
        rfl
      rw [hb]
      simp
  suffices hz : ∀ f i, count_matches_go pat txt f i = 0 by exact hz (txt.length + 2) 0
  intro f
  induction f with
  | zero => intro i; rfl
  | succ f ih =>
    intro i
    unfold count_matches_go
    by_cases hgt : i > txt.length
    · rw [if_pos hgt]
    · rw [if_neg hgt, hmatch i]
      simpa using ih (i + 1)

/-- Concrete instance of C10: the default-configuration keyword `c++`
followed by a space and by end of text is counted 0 times. -/
theorem keyword_trailing_nonword_zero_witness :
    keywordCount "c++" "Uses C++ daily; loves C++" = 0 :=
  keyword_trailing_nonword_zero "c++" "Uses C++ daily; loves C++" '+'
    (by decide) (by decide) (by decide)

theorem dict_insert_fresh {β : Type} (l : List (String × β)) (k : String) (v : β)
    (h : k ∉ l.map Prod.fst) : dict_insert l k v = l ++ [(k, v)] := by
  unfold dict_insert
  apply if_neg
  simp only [List.any_eq_true, decide_eq_true_eq, not_exists, not_and]
  intro p hp hpk
  exact h (hpk ▸ List.mem_map_of_mem Prod.fst hp)

theorem foldl_dict_insert_map {α β : Type} (key : α → String) (f : α → β) :
    ∀ (l : List α) (init : List (String × β)),
      (l.map key).Nodup → (∀ x ∈ l, key x ∉ init.map Prod.fst) →
      l.foldl (fun acc x => dict_insert acc (key x) (f x)) init =
        init ++ l.map (fun x => (key x, f x)) := by
  intro l
  induction l with
  | nil => intro init _ _; simp
  | cons x r ih =>
    intro init hnd hfresh
    have hnd2 : (key x ∉ r.map key) ∧ (r.map key).Nodup := by
      rw [List.map_cons] at hnd
      exact List.nodup_cons.mp hnd
    rw [List.foldl_cons,
      dict_insert_fresh init (key x) (f x) (hfresh x (List.mem_cons_self x r)),
      ih (init ++ [(key x, f x)]) hnd2.2 ?_]
    · simp
    · intro y hy
      simp only [List.map_append, List.mem_append, List.map_cons, List.map_nil,
        List.mem_singleton, not_or]
      refine ⟨hfresh y (List.mem_cons_of_mem x hy), ?_⟩
      intro hk
      exact hnd2.1 (hk ▸ List.mem_map_of_mem key hy)

/-- Claim C6: for duplicate-free configurations (category names are Python
dict keys; keyword lists without repetition), the keyword analysis lists
every configured category and, inside it, every configured keyword with its
count (zero included), both in configuration order. -/
theorem analyze_keywords_complete (raw : String) (cfg : List (String × List String))
    (hcat : (cfg.map Prod.fst).Nodup) (hkw : ∀ p ∈ cfg, p.2.Nodup) :
    analyze_keywords_data raw cfg =
      cfg.map (fun p => (p.1, p.2.map (fun kw => (kw, keywordCount kw raw)))) := by
  unfold analyze_keywords_data
  rw [foldl_dict_insert_map Prod.fst (fun p => count_keywords raw p.2) cfg []
    hcat (by simp)]
  simp only [List.nil_append]
  apply List.map_congr_left
  intro p hp
  have hinner : count_keywords raw p.2 =
      p.2.map (fun kw => (kw, keywordCount kw raw)) := by
    unfold count_keywords
    rw [foldl_dict_insert_map (fun kw => kw) (fun kw => keywordCount kw raw) p.2 []
      (by simpa using hkw p hp) (by simp)]
    simp
  rw [hinner]

/-- Concrete instance of C6 on a two-category configuration. -/
theorem analyze_keywords_complete_witness :
    analyze_keywords_data "git docker docker"
        [("Tech", ["docker", "git"]), ("Cloud", ["aws"])] =
      [("Tech", [("docker", 2), ("git", 1)]), ("Cloud", [("aws", 0)])] := by
  rw [analyze_keywords_complete "git docker docker"
    [("Tech", ["docker", "git"]), ("Cloud", ["aws"])] (by decide) (by decide)]
  decide

/-!  ## most_common lemmas  -/

theorem mem_enumFrom_le {α : Type} :
    ∀ (l : List α) (n : Nat) (p : Nat × α), p ∈ l.enumFrom n → n ≤ p.1 := by
  intro l
  induction l with
  | nil => intro n p hp; cases hp
  | cons a r ih =>
    intro n p hp
    rcases List.mem_cons.mp hp with h | h
    · rw [h]
    · exact Nat.le_of_succ_le (ih (n + 1) p h)

theorem map_snd_orderedInsert (a : String × Nat) (k : Nat)
    (L : List (Nat × String × Nat)) (h : ∀ p ∈ L, k < p.1) :
    (List.orderedInsert mcOrder (k, a) L).map Prod.snd =
      List.orderedInsert (fun x y : String × Nat => y.2 ≤ x.2) a (L.map Prod.snd) := by
  induction L with
  | nil => rfl
  | cons b L ih =>
    have hk : k < b.1 := h b (List.mem_cons_self b L)
    by_cases hc : b.2.2 ≤ a.2
    · have hm : mcOrder (k, a) b := by
        show b.2.2 < a.2 ∨ (a.2 = b.2.2 ∧ k ≤ b.1)
        omega
      simp only [List.orderedInsert, if_pos hm, if_pos hc, List.map_cons]
    · have hm : ¬mcOrder (k, a) b := by
        show ¬(b.2.2 < a.2 ∨ (a.2 = b.2.2 ∧ k ≤ b.1))
        omega
      simp only [List.orderedInsert, if_neg hm, if_neg hc, List.map_cons]
      rw [ih (fun p hp => h p (List.mem_cons_of_mem b hp))]

theorem map_snd_insertionSort_enumFrom :
    ∀ (l : List (String × Nat)) (k : Nat),
      (List.insertionSort mcOrder (l.enumFrom k)).map Prod.snd =
        List.insertionSort (fun x y : String × Nat => y.2 ≤ x.2) l := by
  intro l
  induction l with
  | nil => intro k; rfl
  | cons a l ih =>
    intro k
    have hstep : (a :: l).enumFrom k = (k, a) :: l.enumFrom (k + 1) := rfl
    rw [hstep, List.insertionSort, List.insertionSort,
      map_snd_orderedInsert a k _ ?_, ih (k + 1)]
    intro p hp
    have hmem : p ∈ l.enumFrom (k + 1) := (List.mem_insertionSort mcOrder).mp hp
    exact Nat.lt_of_succ_le (mem_enumFrom_le l (k + 1) p hmem)

/-- Claim C7: `most_common n` is the first `n` entries of the items of the
token counter (which lists tokens in first-appearance order) sorted by
strictly descending count with ties broken by first-appearance index, and on
`[api, api, git, api, git]` with `n = 2` it returns
`[(api, 3), (git, 2)]`. -/
theorem most_common_top_n :
    (∀ (tokens : List String) (n : Nat),
      ∃ l : List (Nat × String × Nat),
        l.Perm ((counterItems tokens).enum) ∧ l.Sorted mcOrder ∧
        most_common n tokens = (l.map Prod.snd).take n) ∧
    most_common 2 ["api", "api", "git", "api", "git"] = [("api", 3), ("git", 2)] := by
  refine ⟨?_, by decide⟩
  intro tokens n
  refine ⟨List.insertionSort mcOrder ((counterItems tokens).enum),
    List.perm_insertionSort mcOrder _, List.sorted_insertionSort mcOrder _, ?_⟩
  unfold most_common
  have henum : (counterItems tokens).enum = (counterItems tokens).enumFrom 0 := rfl
  rw [henum, map_snd_insertionSort_enumFrom (counterItems tokens) 0]

end CVA
